/-
Verification of the metaBayes inference pipeline (Rust sources under src/)
against its natural-language specification.

The numeric code operates on IEEE f64; following the usual shallow-embedding
convention, machine floats are modelled by real numbers and decimal literals
are read exactly.  Discrete data (indices, lists, counters) are modelled by
Nat / List.  Randomness (RNG draws, Gamma initialisations, uniform acceptance
variables) is externalised: each function that consumes random values takes
them as explicit parameters.  HashSet / HashMap values are modelled by lists
of elements / key-value pairs; the unspecified iteration order of a hash set
is represented by the order of the modelling list.
-/
import Mathlib

noncomputable section

namespace MetaBayes

/- ================================================================
   Shared numeric helpers
   ================================================================ -/

/-- Rust `f64::round`: round half away from zero. -/
def rustRound (x : ℝ) : ℤ :=
  if 0 ≤ x then ⌊x + 1 / 2⌋ else -⌊-x + 1 / 2⌋

/- ================================================================
   main.rs: temperature ladder for the parallel-tempering chains
   (main.rs lines 104-136).  `prev_temp` starts at 1.0; chain 0 gets
   temperature 1.0 and chain i+1 gets
   `if prev - 0.001 < 0 then 0 else (prev - 0.001).powf(1.5)`.
   ================================================================ -/

def chain_temperature : ℕ → ℝ
  | 0 => 1.0
  | i + 1 =>
    let base := chain_temperature i - 0.001
    if base < 0 then 0 else base ^ (1.5 : ℝ)

/- ================================================================
   step4_inference.rs, run_gibbs_sampler (lines 242-255): after the
   sampling loop the per-species credible interval reads
   `vals[(iterations as f64 * 0.025).round() as usize]` and
   `vals[(iterations as f64 * 0.975).round() as usize]`, where `vals`
   is the sorted abundance history whose length equals `iterations`
   (one vector is pushed for every `i >= burnin` in
   `0..(iterations+burnin)`).  No clamping is performed.
   ================================================================ -/

def ci_low_index (iterations : ℕ) : ℕ :=
  (rustRound ((iterations : ℝ) * 0.025)).toNat

def ci_high_index (iterations : ℕ) : ℕ :=
  (rustRound ((iterations : ℝ) * 0.975)).toNat

/-- Number of vectors pushed into `abund_history`: one for each
`i >= burnin` in the loop over `0..(iterations + burnin)`. -/
def gibbs_history_length (iterations burnin : ℕ) : ℕ :=
  ((List.range (iterations + burnin)).filter (fun i => decide (burnin ≤ i))).length

/- ================================================================
   step3_mcmc.rs, McmcContext::new (lines 66-82): the model-complexity
   penalty computed once at construction.
   ================================================================ -/

def lpenalty_calc (total_reads read_support median_genome_len p_unknown_penalty_ref : ℝ) : ℝ :=
  let s := read_support
  let n := total_reads
  let g := median_genome_len
  let p_unk := p_unknown_penalty_ref
  let l_null := n * Real.log p_unk
  let w_unk := (n - s) / n
  let w_sp := s / n
  let prob_match := p_unk * w_unk + (1 / g) * w_sp
  let prob_no_match := p_unk * w_unk
  let l_one := s * Real.log prob_match + (n - s) * Real.log prob_no_match
  l_null - l_one

/- ================================================================
   step3_mcmc.rs, PART 1: data structures (lines 14-47) and the
   constructor `McmcContext::new` (lines 49-93).  The CSR matrix is
   modelled as a list of rows, each row a list of
   (column index, value) entries; `ncols` is carried explicitly.
   ================================================================ -/

structure McmcContext where
  matrix : List (List (ℕ × ℝ))
  read_weights : List ℝ
  taxons : List String
  taxon_weights : List ℝ
  ncols : ℕ
  median_genome_len : ℝ
  read_support : ℕ
  lpenalty : ℝ

structure ChainRecord where
  iter : ℕ
  log_likelihood : ℝ
  move_type : String

structure ChainState where
  id : ℕ
  temperature : ℝ
  species_set : List ℕ
  abundances : List (ℕ × ℝ)
  current_unk_prob : ℝ
  current_log_likelihood : ℝ
  moves_attempted : ℕ
  moves_accepted : ℕ
  swaps_attempted : ℕ
  swaps_accepted : ℕ
  history : List ChainRecord

/-- `McmcContext::new`: converts the log matrix to linear space
(`val.exp()` on every stored value) and computes the L-penalty from the
total read weight, the read-support parameter, the median genome length
and the reference floor. -/
def McmcContext.new (log_matrix : List (List (ℕ × ℝ))) (ncols : ℕ)
    (read_weights : List ℝ) (taxons : List String) (taxon_weights : List ℝ)
    (median_genome_len : ℝ) (read_support : ℕ)
    (p_unknown_penalty_ref : ℝ) : McmcContext :=
  { matrix := log_matrix.map (fun row => row.map (fun e => (e.1, Real.exp e.2)))
    read_weights := read_weights
    taxons := taxons
    taxon_weights := taxon_weights
    ncols := ncols
    median_genome_len := median_genome_len
    read_support := read_support
    lpenalty := lpenalty_calc read_weights.sum (read_support : ℝ)
      median_genome_len p_unknown_penalty_ref }

/- ================================================================
   step3_mcmc.rs, run_mini_em (lines 96-192).

   The Rust code takes the subset as a HashSet and materialises
   `active_indices` by set iteration; here the caller passes the list
   `active` directly.  `initial_abundances.get(idx).unwrap_or(&0.0)` is
   modelled by `lookupAbund`.  Per-entry membership testing
   `active_indices.iter().position(|&id| id == col)` is `findIdx?`.
   The single pass per iteration is decomposed into one sum per
   accumulated quantity; this regroups floating-point additions, which
   the real-number model absorbs.
   ================================================================ -/

/-- `initial_abundances.get(idx).unwrap_or(&0.0)` on the HashMap,
modelled as an association list. -/
def lookupAbund (m : List (ℕ × ℝ)) (k : ℕ) : ℝ :=
  (((m.find? (fun p => decide (p.1 = k))).map (fun p => p.2)).getD 0)

/-- State carried between mini-EM iterations: current abundances over
`active`, the unknown-bin abundance, the unknown probability floor and
the log-likelihood accumulated in the most recent iteration. -/
@[ext]
structure EmSt where
  abund : List ℝ
  unk : ℝ
  floor : ℝ
  logL : ℝ

/-- `denom_known` of one row: sum of `p_linear * abundances[pos]` over
the row entries whose column occurs in `active` (position of first
match, as in the Rust linear scan). -/
def rowDen (active : List ℕ) (abund : List ℝ) (row : List (ℕ × ℝ)) : ℝ :=
  (row.map (fun e =>
    match active.findIdx? (fun idx => decide (idx = e.1)) with
    | some pos => e.2 * abund.getD pos 0
    | none => 0)).sum

/-- Sum of the `p_linear` values of the row entries that resolve to
active position `pos`. -/
def rowPosSum (row : List (ℕ × ℝ)) (pos : ℕ) (active : List ℕ) : ℝ :=
  ((row.filter (fun e =>
    decide (active.findIdx? (fun idx => decide (idx = e.1)) = some pos))).map
      (fun e => e.2)).sum

/-- The `den_known` values collected into `valid_aligns`
(rows with `den_known > 1e-300`). -/
def emValidDens (ctx : McmcContext) (active : List ℕ) (st : EmSt) : List ℝ :=
  ((ctx.matrix.zip ctx.read_weights).map
    (fun rw => rowDen active st.abund rw.1)).filter (fun d => decide (1e-300 < d))

/-- Unnormalised next abundance vector: position `pos` accumulates
`(w / safe_denom) * p_linear * abundances[pos]` over all rows, with
`safe_denom = den_known + p_unk * unk_abundance + 1e-300`. -/
def emNextAbund (ctx : McmcContext) (active : List ℕ) (st : EmSt) : List ℝ :=
  (List.range active.length).map (fun pos =>
    ((ctx.matrix.zip ctx.read_weights).map (fun rw =>
      (rw.2 / (rowDen active st.abund rw.1 + st.floor * st.unk + 1e-300))
        * rowPosSum rw.1 pos active * st.abund.getD pos 0)).sum)

/-- Unnormalised next unknown abundance. -/
def emNextUnk (ctx : McmcContext) (active : List ℕ) (st : EmSt) : ℝ :=
  ((ctx.matrix.zip ctx.read_weights).map (fun rw =>
    (rw.2 / (rowDen active st.abund rw.1 + st.floor * st.unk + 1e-300))
      * (st.floor * st.unk))).sum

/-- Log-likelihood accumulated in one iteration:
`Σ w_i * ln(safe_denom_i)`. -/
def emIterLogL (ctx : McmcContext) (active : List ℕ) (st : EmSt) : ℝ :=
  ((ctx.matrix.zip ctx.read_weights).map (fun rw =>
    rw.2 * Real.log (rowDen active st.abund rw.1 + st.floor * st.unk + 1e-300))).sum

/-- Adaptive floor update (lines 160-170): only at 0-based iterations
`iter > 1` and only when more than 10 rows have `den_known > 1e-300`;
the median is the `len/2`-th order statistic (`select_nth_unstable`),
the damped proposal is clamped into `[1e-300, 1e-5]`. -/
def emFloorNext (ctx : McmcContext) (active : List ℕ) (iterNum : ℕ) (st : EmSt) : ℝ :=
  let valid := if 1 < iterNum then emValidDens ctx active st else []
  if 1 < iterNum ∧ 10 < valid.length then
    let median_prob := (valid.mergeSort (fun x y => decide (x ≤ y))).getD (valid.length / 2) 0
    let proposed_floor := median_prob * 1e-12
    let f := 0.8 * st.floor + 0.2 * proposed_floor
    let f1 := if f < 1e-300 then 1e-300 else f
    if 1e-5 < f1 then 1e-5 else f1
  else st.floor

/-- One mini-EM iteration (the body of `for iter in 0..iterations`),
including the E-step accumulation, the floor update, and the
normalisation (with uniform reset when the total mass is ≤ 0). -/
def em_step (ctx : McmcContext) (active : List ℕ) (iterNum : ℕ) (st : EmSt) : EmSt :=
  let next := emNextAbund ctx active st
  let nextU := emNextUnk ctx active st
  let total := next.sum + nextU
  if 0 < total then
    { abund := next.map (fun x => x / total), unk := nextU / total
      floor := emFloorNext ctx active iterNum st
      logL := emIterLogL ctx active st }
  else
    { abund := List.replicate active.length (1 / ((active.length : ℝ) + 1))
      unk := 1 / ((active.length : ℝ) + 1)
      floor := emFloorNext ctx active iterNum st
      logL := emIterLogL ctx active st }

/-- Initial mini-EM state (lines 108-117): abundances looked up from
the initial map (default 0), unknown bin seeded at 0.01, everything
divided by the common sum.  The Rust code initialises the
log-likelihood to `-inf`; that value is overwritten by every iteration
and is observable only when `iterations = 0`, so it is represented by
an arbitrary constant here. -/
def emInit (active : List ℕ) (initial_abundances : List (ℕ × ℝ))
    (start_unk_prob : ℝ) : EmSt :=
  let a0 := active.map (fun idx => lookupAbund initial_abundances idx)
  let s := a0.sum + 0.01
  { abund := a0.map (fun x => x / s), unk := 0.01 / s
    floor := start_unk_prob, logL := 0 }

/-- The mini-EM state after `k` of the `iterations` loop passes. -/
def emStateAt (ctx : McmcContext) (active : List ℕ)
    (initial_abundances : List (ℕ × ℝ)) (start_unk_prob : ℝ) : ℕ → EmSt
  | 0 => emInit active initial_abundances start_unk_prob
  | k + 1 => em_step ctx active k (emStateAt ctx active initial_abundances start_unk_prob k)

/-- `run_mini_em`: returns the final iteration's log-likelihood, the
final abundance map (species index paired with abundance) and the final
floor. -/
def run_mini_em (ctx : McmcContext) (species_set : List ℕ)
    (initial_abundances : List (ℕ × ℝ)) (start_unk_prob : ℝ)
    (iterations : ℕ) : ℝ × List (ℕ × ℝ) × ℝ :=
  let fin := emStateAt ctx species_set initial_abundances start_unk_prob iterations
  (fin.logL, species_set.zip fin.abund, fin.floor)

/- ================================================================
   step3_mcmc.rs, PART 2: move logic (lines 198-338).
   ================================================================ -/

structure MoveProbs where
  add : ℝ
  remove : ℝ
  swap : ℝ

inductive Move where
  | Add : ℕ → Move
  | Remove : ℕ → Move
  | Swap : ℕ → ℕ → Move
  | None : Move
deriving DecidableEq

/-- `McmcLogic::get_move_probs`. -/
def get_move_probs (num_present_species num_total_species : ℕ) : MoveProbs :=
  if ¬ 0 < num_present_species then { add := 1.0, remove := 0.0, swap := 0.0 }
  else if ¬ num_present_species < num_total_species then
    { add := 0.0, remove := 1.0, swap := 0.0 }
  else { add := 0.4, remove := 0.4, swap := 0.2 }

/-- `McmcLogic::get_pick_prob` with `move_type == "add"`: the weight of
`id` among all candidates outside `target_set`, divided by the total
candidate weight (0 when the total weight is 0). -/
def get_pick_prob_add (id : ℕ) (ctx : McmcContext) (target_set : List ℕ) : ℝ :=
  let candidates := (List.range ctx.ncols).filter (fun c => decide (c ∉ target_set))
  let total_weight := (candidates.map (fun c => ctx.taxon_weights.getD c 0)).sum
  let my_weight := if id ∈ candidates then ctx.taxon_weights.getD id 0 else 0
  if total_weight = 0 then 0 else my_weight / total_weight

/-- `McmcLogic::get_pick_prob` with `move_type == "remove"`: inverse
abundance weights clamped to the 20th/80th percentile values
(`sorted[(0.2*len).floor()]`, `sorted[(0.8*len).floor()]`, indices
clamped to `[0, len-1]`), then normalised. -/
def get_pick_prob_remove (id : ℕ) (target_abundances : List (ℕ × ℝ)) : ℝ :=
  let raw_inv_weights := target_abundances.map (fun p => 1 / (p.2 + 1e-300))
  let my_raw := (((target_abundances.find? (fun p => decide (p.1 = id))).map
    (fun p => 1 / (p.2 + 1e-300))).getD 0)
  let sorted_w := raw_inv_weights.mergeSort (fun x y => decide (x ≤ y))
  let len := raw_inv_weights.length
  let p20 := sorted_w.getD (min (⌊(len : ℝ) * 0.2⌋.toNat) (len - 1)) 0
  let p80 := sorted_w.getD (min (⌊(len : ℝ) * 0.8⌋.toNat) (len - 1)) 0
  let my_clamped := max p20 (min my_raw p80)
  let total_clamped := (raw_inv_weights.map (fun w => max p20 (min w p80))).sum
  if total_clamped = 0 then 0 else my_clamped / total_clamped

/- ================================================================
   step3_mcmc.rs, PART 3: run_chain_step (lines 345-506).

   RNG-driven choices are passed in explicitly: the selected move
   (lines 356-375), the normalised Gamma(1,1) initial abundances for
   the proposed set (lines 396-413) and the acceptance uniform
   (line 467).
   ================================================================ -/

/-- Forming `next_set` from the current species set (lines 388-394);
set insert / remove on the modelling list. -/
def applyMove (s : List ℕ) : Move → List ℕ
  | Move.Add id => if id ∈ s then s else s ++ [id]
  | Move.Remove id => s.filter (fun x => decide (x ≠ id))
  | Move.Swap rem add =>
      let t := s.filter (fun x => decide (x ≠ rem))
      if add ∈ t then t else t ++ [add]
  | Move.None => s

/-- The `m_str` recorded in accepted-move history entries. -/
def moveString : Move → String
  | Move.Add id => "Add(" ++ toString id ++ ")"
  | Move.Remove id => "Remove(" ++ toString id ++ ")"
  | Move.Swap r a => "Swap(" ++ toString r ++ "->" ++ toString a ++ ")"
  | Move.None => "None"

/-- The total log acceptance ratio of a concrete move
(lines 415-462): `log_ratio_data + log_q_rev - log_q_fwd` with
`log_ratio_data = (new_penalized - current_penalized) * temperature`,
forward pick probabilities evaluated under the current state and
reverse pick probabilities under the proposed set and the proposed
abundances returned by mini-EM. -/
def chain_step_log_alpha (ctx : McmcContext) (st : ChainState) (move : Move)
    (init_abund : List (ℕ × ℝ)) (em_iterations : ℕ) : ℝ :=
  let next_set := applyMove st.species_set move
  let emr := run_mini_em ctx next_set init_abund st.current_unk_prob em_iterations
  let new_abundances := emr.2.1
  let new_penalized := emr.1 + (next_set.length : ℝ) * ctx.lpenalty
  let log_r_data := (new_penalized - st.current_log_likelihood) * st.temperature
  let move_probs := get_move_probs st.species_set.length ctx.ncols
  let move_probs_new := get_move_probs next_set.length ctx.ncols
  let qfr : ℝ × ℝ :=
    match move with
    | Move.Add id =>
        (Real.log move_probs.add + Real.log (get_pick_prob_add id ctx st.species_set),
         Real.log move_probs_new.remove + Real.log (get_pick_prob_remove id new_abundances))
    | Move.Remove id =>
        (Real.log move_probs.remove + Real.log (get_pick_prob_remove id st.abundances),
         Real.log move_probs_new.add + Real.log (get_pick_prob_add id ctx next_set))
    | Move.Swap rem add =>
        (Real.log move_probs.swap + Real.log (get_pick_prob_remove rem st.abundances)
           + Real.log (get_pick_prob_add add ctx st.species_set),
         Real.log move_probs_new.swap + Real.log (get_pick_prob_remove add new_abundances)
           + Real.log (get_pick_prob_add rem ctx next_set))
    | Move.None => (0, 0)
  log_r_data + qfr.2 - qfr.1

/-- `run_chain_step` from the point where the move has been drawn.
`init_abund` is the normalised Gamma draw used to initialise mini-EM on
the proposed set; `u` is the acceptance uniform. -/
def run_chain_step (ctx : McmcContext) (st : ChainState) (move : Move)
    (init_abund : List (ℕ × ℝ)) (u : ℝ) (current_iter : ℕ)
    (em_iterations : ℕ) : ChainState :=
  match move with
  | Move.None =>
      { st with history := st.history ++
          [{ iter := current_iter
             log_likelihood := st.current_log_likelihood * st.temperature
             move_type := "None" }] }
  | _ =>
    let next_set := applyMove st.species_set move
    let emr := run_mini_em ctx next_set init_abund st.current_unk_prob em_iterations
    let new_abundances := emr.2.1
    let new_unk_prob := emr.2.2
    let new_penalized := emr.1 + (next_set.length : ℝ) * ctx.lpenalty
    let total_log_r := chain_step_log_alpha ctx st move init_abund em_iterations
    if 0 ≤ total_log_r ∨ u < Real.exp total_log_r then
      { st with
        moves_attempted := st.moves_attempted + 1
        moves_accepted := st.moves_accepted + 1
        species_set := next_set
        abundances := new_abundances
        current_unk_prob := new_unk_prob
        current_log_likelihood := new_penalized
        history := st.history ++
          [{ iter := current_iter
             log_likelihood := new_penalized * st.temperature
             move_type := moveString move }] }
    else
      { st with
        moves_attempted := st.moves_attempted + 1
        history := st.history ++
          [{ iter := current_iter
             log_likelihood := st.current_log_likelihood * st.temperature
             move_type := "Reject" }] }

/- ================================================================
   step3_mcmc.rs, run_mcmc_parallel swap phase (lines 555-598): the
   coordinator walks even/odd neighbour pairs; for one pair the body
   is modelled by `swap_pair` (a = chains[c], b = chains[c+1],
   `aIdx = c`, `u` the swap uniform, `iterNum = (block+1) *
   exchange_interval`).
   ================================================================ -/

/-- Swap acceptance log-ratio `(l2 - l1) * (t1 - t2)` (line 571). -/
def swapAlpha (a b : ChainState) : ℝ :=
  (b.current_log_likelihood - a.current_log_likelihood) * (a.temperature - b.temperature)

/-- The swap acceptance condition (line 573). -/
def swapAccept (a b : ChainState) (u : ℝ) : Prop :=
  0 ≤ swapAlpha a b ∨ u < Real.exp (swapAlpha a b)

instance (a b : ChainState) (u : ℝ) : Decidable (swapAccept a b u) := by
  unfold swapAccept; infer_instance

/-- One pair iteration of the coordinator swap loop (lines 560-597):
increments both attempt counters, and on acceptance exchanges
species_set / abundances / current_unk_prob / current_log_likelihood,
increments both acceptance counters and appends a swap record (tagged
with the partner chain index and carrying the incoming, un-tempered
log-likelihood) to each history. -/
def swap_pair (a b : ChainState) (aIdx : ℕ) (u : ℝ) (iterNum : ℕ) :
    ChainState × ChainState :=
  if swapAccept a b u then
    ({ a with
        swaps_attempted := a.swaps_attempted + 1
        species_set := b.species_set
        abundances := b.abundances
        current_unk_prob := b.current_unk_prob
        current_log_likelihood := b.current_log_likelihood
        swaps_accepted := a.swaps_accepted + 1
        history := a.history ++
          [{ iter := iterNum
             log_likelihood := b.current_log_likelihood
             move_type := "Swapped from Chain " ++ toString (aIdx + 1) }] },
     { b with
        swaps_attempted := b.swaps_attempted + 1
        species_set := a.species_set
        abundances := a.abundances
        current_unk_prob := a.current_unk_prob
        current_log_likelihood := a.current_log_likelihood
        swaps_accepted := b.swaps_accepted + 1
        history := b.history ++
          [{ iter := iterNum
             log_likelihood := a.current_log_likelihood
             move_type := "Swapped from Chain " ++ toString aIdx }] })
  else
    ({ a with swaps_attempted := a.swaps_attempted + 1 },
     { b with swaps_attempted := b.swaps_attempted + 1 })

/-- The two concrete chain states used by the C5 counterexample.
Temperatures `1/2` and `1/4`, likelihoods `1` and `2`; the swap
log-ratio is `(2 - 1) * (1/2 - 1/4) = 1/4 ≥ 0`, so the swap is
accepted deterministically. -/
def chainA : ChainState :=
  { id := 0, temperature := 1 / 2, species_set := [0], abundances := [(0, 1)]
    current_unk_prob := 1e-300, current_log_likelihood := 1
    moves_attempted := 0, moves_accepted := 0
    swaps_attempted := 0, swaps_accepted := 0, history := [] }

def chainB : ChainState :=
  { id := 1, temperature := 1 / 4, species_set := [1], abundances := [(1, 1)]
    current_unk_prob := 1e-300, current_log_likelihood := 2
    moves_attempted := 0, moves_accepted := 0
    swaps_attempted := 0, swaps_accepted := 0, history := [] }

/-- Modelled from the spec: the acceptance log-ratio
`α = T * (new_penalized - current_penalized) + log q_rev - log q_fwd`,
with `new_penalized = miniEM_logL + |next_S| * L_penalty`, forward pick
probabilities under the current state and reverse pick probabilities
under the proposed set and the proposed abundances returned by
mini-EM.  Compared against `chain_step_log_alpha`, which is transcribed
from the code. -/
def specMhAlpha (ctx : McmcContext) (st : ChainState) (move : Move)
    (init_abund : List (ℕ × ℝ)) (em_iterations : ℕ) : ℝ :=
  let next_set := applyMove st.species_set move
  let emr := run_mini_em ctx next_set init_abund st.current_unk_prob em_iterations
  let new_penalized := emr.1 + (next_set.length : ℝ) * ctx.lpenalty
  let probs := get_move_probs st.species_set.length ctx.ncols
  let probsN := get_move_probs next_set.length ctx.ncols
  let q : ℝ × ℝ :=
    match move with
    | Move.Add id =>
        (Real.log probs.add + Real.log (get_pick_prob_add id ctx st.species_set),
         Real.log probsN.remove + Real.log (get_pick_prob_remove id emr.2.1))
    | Move.Remove id =>
        (Real.log probs.remove + Real.log (get_pick_prob_remove id st.abundances),
         Real.log probsN.add + Real.log (get_pick_prob_add id ctx next_set))
    | Move.Swap rem add =>
        (Real.log probs.swap + Real.log (get_pick_prob_remove rem st.abundances)
           + Real.log (get_pick_prob_add add ctx st.species_set),
         Real.log probsN.swap + Real.log (get_pick_prob_remove add emr.2.1)
           + Real.log (get_pick_prob_add rem ctx next_set))
    | Move.None => (0, 0)
  st.temperature * (new_penalized - st.current_log_likelihood) + q.2 - q.1

/-- Trivial context and the initial chain state of `main.rs`
(lines 120-135), used as the concrete input of the C6 witness. -/
def ctx0 : McmcContext :=
  McmcContext.new [] 0 [] [] [] 1 30 1e-20

def st0 : ChainState :=
  { id := 0, temperature := 1, species_set := [], abundances := []
    current_unk_prob := 1e-300, current_log_likelihood := -1e10
    moves_attempted := 0, moves_accepted := 0
    swaps_attempted := 0, swaps_accepted := 0, history := [] }

/- ================================================================
   C4: the adaptive floor update.  Concrete contexts: one read fully
   aligned to the single taxon (log-probability 0, so linear
   probability 1), and its eleven-read variant.
   ================================================================ -/

def ctxC4 : McmcContext :=
  McmcContext.new [[(0, 0)]] 1 [1] ["t1"] [1] 100 1 (1 / 2)

/-- Eleven identical fully-aligned reads on the single taxon: a context
in which more than 10 reads enter `valid_aligns`, so the floor-update
branch of `emFloorNext` fires. -/
def ctxC4b : McmcContext :=
  McmcContext.new (List.replicate 11 [(0, 0)]) 1 (List.replicate 11 1)
    ["t1"] [1] 100 1 (1 / 2)

/-- A mini-EM state on `ctxC4b` with the single active taxon holding
the whole mass, used to exercise the floor-update branch. -/
def stC4b : EmSt := { abund := [1], unk := 0, floor := 1e-5, logL := 0 }

/-- Modelled from the spec: the claimed unconditional floor update at
iterations ≥ 2 — `p_unk ← 0.8 * p_unk + 0.2 * (m * 1e-12)` clamped into
`[1e-300, 1e-5]` — where `m` is the median of `den_known` over the
reads with `den_known > 1e-300`. -/
def spec_floor_update (p_unk m : ℝ) : ℝ :=
  min 1e-5 (max 1e-300 (0.8 * p_unk + 0.2 * (m * 1e-12)))

/- ================================================================
   C1: Bayes factors (step4_inference.rs, run_inference lines 55-111).
   ================================================================ -/

/-- The learned unknown floor: the `len/2`-th order statistic of the
chains' current floors (`select_nth_unstable_by(mid)` then
`floors[mid]`, lines 56-59). -/
def learned_floor_of (chains : List ChainState) : ℝ :=
  ((chains.map (fun c => c.current_unk_prob)).mergeSort (fun x y => decide (x ≤ y))).getD
    ((chains.map (fun c => c.current_unk_prob)).length / 2) 0

/-- The per-taxon log10 Bayes factor computed by `run_inference`
(lines 78-110): `h1_log_l` is the cold chain's stored (penalized)
`current_log_likelihood`; `h0_log_l` is the unpenalized mini-EM
log-likelihood of the holdout set `S* \ {sp_idx}` run for 10 iterations
with `init_abund` (the normalised fresh Gamma draw) and the learned
floor; the reported value is `(h1 - h0 + lpenalty) / ln 10`. -/
def bayes_factor_log10 (ctx : McmcContext) (cold : ChainState)
    (learned_floor : ℝ) (sp_idx : ℕ) (init_abund : List (ℕ × ℝ)) : ℝ :=
  let h0_set := cold.species_set.filter (fun i => decide (i ≠ sp_idx))
  let h0_log_l := (run_mini_em ctx h0_set init_abund learned_floor 10).1
  (cold.current_log_likelihood - h0_log_l + ctx.lpenalty) / Real.log 10

/-- C1 counterexample context: two reads with no alignments at all
(empty rows), one taxon; `L_penalty = log (200/51) > 0` from the
parameters of `lpenalty_calc_pos_example`. -/
def ctxC1 : McmcContext :=
  McmcContext.new [[], []] 1 [1, 1] ["t1"] [1] 100 1 (1 / 2)

/-- C1 counterexample cold chain: species set `{0}`, floor `1e-5`, and
stored penalized log-likelihood `L(S*) + 1 * L_penalty` exactly as
`run_chain_step` sets it on an accepted move (`current_log_likelihood
= miniEM_logL + |S| * lpenalty`), where mini-EM on these empty rows
returns `2 * log(1e-5 + 1e-300)` for every initialization. -/
def coldC1 : ChainState :=
  { id := 0, temperature := 1, species_set := [0], abundances := [(0, 0)]
    current_unk_prob := 1e-5
    current_log_likelihood := 2 * Real.log (1e-5 + 1e-300) + ctxC1.lpenalty
    moves_attempted := 1, moves_accepted := 1
    swaps_attempted := 0, swaps_accepted := 0, history := [] }

/- ================================================================
   C8: the EM reducer's post-filter and column subsetting
   (step2_reduce.rs, run_em_reduction lines 104-136 and
   subset_matrix_columns lines 140-161).
   ================================================================ -/

/-- The retained column indices: `round(abund * R) >= cutoff` compared
in f64 (lines 111-125). -/
def survivors (em_abundances : List ℝ) (num_reads read_cutoff : ℕ) : List ℕ :=
  (List.range em_abundances.length).filter
    (fun j => decide ((read_cutoff : ℝ)
      ≤ ((rustRound (em_abundances.getD j 0 * (num_reads : ℝ))) : ℝ)))

/-- `subset_matrix_columns`: keep only entries whose column occurs in
`keep_cols`, renumbered to its position there, preserving rows. -/
def subset_matrix_columns (input : List (List (ℕ × ℝ))) (keep_cols : List ℕ) :
    List (List (ℕ × ℝ)) :=
  input.map (fun row => row.filterMap (fun e =>
    (keep_cols.findIdx? (fun c => decide (c = e.1))).map (fun new_col => (new_col, e.2))))

/-- The post-EM filter stage of `run_em_reduction`: survivors, the
retained taxon ids in column order, the retained abundances, and the
subset matrix. -/
def em_reduce_filter (rows : List (List (ℕ × ℝ))) (taxons : List String)
    (em_abundances : List ℝ) (num_reads read_cutoff : ℕ) :
    List (List (ℕ × ℝ)) × List String × List ℝ :=
  let surv := survivors em_abundances num_reads read_cutoff
  (subset_matrix_columns rows surv,
   surv.map (fun j => taxons.getD j ""),
   surv.map (fun j => em_abundances.getD j 0))

/- ================================================================
   Theorems and supporting lemmas.
   ================================================================ -/

lemma chain_temperature_bounds (i : ℕ) :
    0 ≤ chain_temperature i ∧ chain_temperature i ≤ 1 := by
  induction i with
  | zero => norm_num [chain_temperature]
  | succ k ih =>
    obtain ⟨h0, h1⟩ := ih
    show 0 ≤ (let base := chain_temperature k - 0.001;
        if base < 0 then 0 else base ^ (1.5 : ℝ)) ∧ _
    simp only [chain_temperature]
    by_cases hb : chain_temperature k - 0.001 < 0
    · simp [hb]
    · push_neg at hb
      rw [if_neg (not_lt.mpr hb)]
      constructor
      · exact Real.rpow_nonneg hb _
      · exact Real.rpow_le_one hb (by linarith) (by norm_num)

/-- C9: the initialized temperature of chain 0 is exactly 1.0, each
subsequent temperature equals `max 0 (T_{i-1} - 0.001) ^ 1.5`, every
temperature lies in `[0, 1]`, and the sequence is monotonically
non-increasing in the chain id. -/
theorem c9_temperature_schedule :
    chain_temperature 0 = 1
    ∧ (∀ i, chain_temperature (i + 1) =
        (max 0 (chain_temperature i - 0.001)) ^ (1.5 : ℝ))
    ∧ (∀ i, 0 ≤ chain_temperature i ∧ chain_temperature i ≤ 1)
    ∧ (∀ i, chain_temperature (i + 1) ≤ chain_temperature i) := by
  refine ⟨by norm_num [chain_temperature], fun i => ?_, chain_temperature_bounds, fun i => ?_⟩
  · simp only [chain_temperature]
    by_cases hb : chain_temperature i - 0.001 < 0
    · rw [if_pos hb, max_eq_left (le_of_lt hb), Real.zero_rpow (by norm_num)]
    · push_neg at hb
      rw [if_neg (not_lt.mpr hb), max_eq_right hb]
  · obtain ⟨h0, h1⟩ := chain_temperature_bounds i
    simp only [chain_temperature]
    by_cases hb : chain_temperature i - 0.001 < 0
    · rw [if_pos hb]; exact h0
    · push_neg at hb
      rw [if_neg (not_lt.mpr hb)]
      rcases eq_or_lt_of_le hb with hb0 | hb0
      · rw [← hb0, Real.zero_rpow (by norm_num)]; linarith
      · calc (chain_temperature i - 0.001) ^ (1.5 : ℝ)
            ≤ (chain_temperature i - 0.001) ^ (1 : ℝ) :=
              Real.rpow_le_rpow_of_exponent_ge hb0 (by linarith) (by norm_num)
          _ = chain_temperature i - 0.001 := Real.rpow_one _
          _ ≤ chain_temperature i := by linarith

lemma gibbs_history_length_eq (iterations burnin : ℕ) :
    gibbs_history_length iterations burnin = iterations := by
  unfold gibbs_history_length
  rw [Nat.add_comm, List.range_add, List.filter_append]
  have h1 : (List.range burnin).filter (fun i => decide (burnin ≤ i)) = [] := by
    rw [List.filter_eq_nil_iff]
    intro a ha
    simp only [List.mem_range] at ha
    simp [Nat.not_le.mpr ha]
  have h2 : ((List.range iterations).map (fun x => burnin + x)).filter
      (fun i => decide (burnin ≤ i)) = (List.range iterations).map (fun x => burnin + x) := by
    rw [List.filter_eq_self]
    intro a ha
    simp only [List.mem_map, List.mem_range] at ha
    obtain ⟨x, _, rfl⟩ := ha
    simp
  rw [h1, h2]
  simp

/-- C3 counterexample: at `gibbs_iter = 20` the upper credible-interval
index is `round(0.975 * 20) = 20`, which is NOT within `[0, 19]`: the
code performs no clamping and reads the sorted history (of length 20)
out of bounds. -/
theorem c3_counterexample :
    ci_high_index 20 = 20
    ∧ gibbs_history_length 20 20 = 20
    ∧ ¬ ci_high_index 20 < gibbs_history_length 20 20 := by
  have h : ci_high_index 20 = 20 := by
    unfold ci_high_index rustRound
    rw [if_pos (by norm_num)]
    have h20 : ((20 : ℕ) : ℝ) * 0.975 + 1 / 2 = ((20 : ℤ) : ℝ) := by norm_num
    rw [h20, Int.floor_intCast]
    rfl
  refine ⟨h, gibbs_history_length_eq 20 20, ?_⟩
  rw [h, gibbs_history_length_eq 20 20]
  omega

/-- C3 (amended): the reference performs no clamping; the percentile
indices `round(0.025*iter)` and `round(0.975*iter)` are within
`[0, iter-1]` (so reading the sorted abundance history of length `iter`
stays in bounds) exactly when `iter >= 21`; for `1 <= iter <= 20` the
upper index reaches or exceeds `iter`. -/
theorem c3_amended (iterations burnin : ℕ) (h : 21 ≤ iterations) :
    ci_low_index iterations < gibbs_history_length iterations burnin
    ∧ ci_high_index iterations < gibbs_history_length iterations burnin := by
  rw [gibbs_history_length_eq]
  have hit : (21 : ℝ) ≤ (iterations : ℝ) := by exact_mod_cast h
  have hne : iterations ≠ 0 := by omega
  constructor
  · unfold ci_low_index rustRound
    rw [if_pos (by positivity)]
    rw [Int.toNat_lt' hne, Int.floor_lt]
    push_cast
    linarith
  · unfold ci_high_index rustRound
    rw [if_pos (by positivity)]
    rw [Int.toNat_lt' hne, Int.floor_lt]
    push_cast
    linarith

/-- Witness for `c3_amended` at `iter = 21`, `burnin = 20`. -/
theorem c3_amended_witness :
    ci_low_index 21 < gibbs_history_length 21 20
    ∧ ci_high_index 21 < gibbs_history_length 21 20 :=
  c3_amended 21 20 (by norm_num)

lemma lpenalty_calc_pos_example : 0 < lpenalty_calc 2 1 100 (1 / 2) := by
  unfold lpenalty_calc
  have h1 : ((1 : ℝ) / 2 * ((2 - 1) / 2) + 1 / 100 * (1 / 2)) = 51 / 200 := by norm_num
  have h2 : ((1 : ℝ) / 2 * ((2 - 1) / 2)) = 1 / 4 := by norm_num
  simp only [h1, h2]
  have h4 : Real.log ((1 : ℝ) / 4) = 2 * Real.log (1 / 2) := by
    rw [show ((1 : ℝ) / 4) = (1 / 2) ^ (2 : ℕ) by norm_num, Real.log_pow]
    norm_num
  have h5 : Real.log ((51 : ℝ) / 200) < 0 :=
    Real.log_neg (by norm_num) (by norm_num)
  nlinarith [h4, h5]

/-- C2 counterexample: the parameters `N = 2, s = 1, g = 100,
p_ref = 1/2` satisfy all of the claim's hypotheses
(`N ≥ s ≥ 0`, `g > 0`, `0 < p_ref < 1`), yet the L-penalty computed by
`McmcContext::new` is `log (200/51) > 0`, contradicting `L_penalty ≤ 0`. -/
theorem c2_counterexample :
    (0 : ℝ) ≤ 1 ∧ (1 : ℝ) ≤ 2 ∧ (0 : ℝ) < 100 ∧ (0 : ℝ) < 1 / 2 ∧ (1 / 2 : ℝ) < 1
    ∧ ¬ lpenalty_calc 2 1 100 (1 / 2) ≤ 0 := by
  refine ⟨by norm_num, by norm_num, by norm_num, by norm_num, by norm_num, ?_⟩
  exact not_le.mpr lpenalty_calc_pos_example

/-- C2 (amended): for `0 < s < N`, `g > 0`, `0 < p_ref < 1`, and
additionally `e * p_ref ≤ s / (N * g)` (satisfied in the intended regime
`p_ref = 1e-20`), every logarithm argument is positive and
`L_penalty ≤ 0`. -/
theorem c2_amended (n s g p : ℝ) (hs : 0 < s) (hsn : s < n) (hg : 0 < g)
    (hp : 0 < p) (hp1 : p < 1) (hep : Real.exp 1 * p ≤ s / (n * g)) :
    lpenalty_calc n s g p ≤ 0 := by
  have hn : 0 < n := lt_trans hs hsn
  have hns : 0 < n - s := by linarith
  have hw : 0 < (n - s) / n := div_pos hns hn
  have hq : 0 < (1 / g) * (s / n) := mul_pos (by positivity) (div_pos hs hn)
  have hpw : 0 < p * ((n - s) / n) := mul_pos hp hw
  have hpm : 0 < p * ((n - s) / n) + (1 / g) * (s / n) := by linarith
  have hqe : (1 / g) * (s / n) = s / (n * g) := by
    rw [div_mul_div_comm, one_mul, mul_comm g n]
  -- log (p * w) = log p + log w
  have hlw : Real.log (p * ((n - s) / n)) = Real.log p + Real.log ((n - s) / n) :=
    Real.log_mul (ne_of_gt hp) (ne_of_gt hw)
  -- (n - s) * (- log w) ≤ s  via  log x ≤ x - 1 at x = w⁻¹
  have hinv : Real.log (((n - s) / n)⁻¹) ≤ ((n - s) / n)⁻¹ - 1 :=
    Real.log_le_sub_one_of_pos (by positivity)
  have hloginv : Real.log (((n - s) / n)⁻¹) = -Real.log ((n - s) / n) := Real.log_inv _
  have hinvval : ((n - s) / n)⁻¹ = n / (n - s) := by
    rw [inv_div]
  have hbound2 : (n - s) * (-Real.log ((n - s) / n)) ≤ s := by
    rw [← hloginv]
    have h1 : (n - s) * Real.log (((n - s) / n)⁻¹) ≤ (n - s) * (((n - s) / n)⁻¹ - 1) :=
      mul_le_mul_of_nonneg_left hinv (le_of_lt hns)
    have h2 : (n - s) * (((n - s) / n)⁻¹ - 1) = s := by
      rw [hinvval]
      field_simp
    linarith
  -- log p + 1 ≤ log (p * w + q)
  have hlogq : Real.log ((1 / g) * (s / n)) ≤
      Real.log (p * ((n - s) / n) + (1 / g) * (s / n)) := by
    apply Real.log_le_log hq
    linarith
  have hqp : Real.exp 1 ≤ ((1 / g) * (s / n)) / p := by
    rw [le_div_iff₀ hp, hqe]
    linarith [hep]
  have hlogqp : 1 ≤ Real.log (((1 / g) * (s / n)) / p) := by
    calc (1 : ℝ) = Real.log (Real.exp 1) := (Real.log_exp 1).symm
      _ ≤ Real.log (((1 / g) * (s / n)) / p) :=
          Real.log_le_log (Real.exp_pos 1) hqp
  have hlogdiv : Real.log (((1 / g) * (s / n)) / p) =
      Real.log ((1 / g) * (s / n)) - Real.log p :=
    Real.log_div (ne_of_gt hq) (ne_of_gt hp)
  have hbound1 : Real.log p + 1 ≤ Real.log (p * ((n - s) / n) + (1 / g) * (s / n)) := by
    rw [hlogdiv] at hlogqp
    linarith
  -- assemble
  unfold lpenalty_calc
  simp only
  rw [hlw]
  nlinarith [mul_le_mul_of_nonneg_left hbound1 (le_of_lt hs), hbound2]

/-- Witness for `c2_amended` at `N = 2, s = 1, g = 1, p_ref = exp (-2)`. -/
theorem c2_amended_witness : lpenalty_calc 2 1 1 (Real.exp (-2)) ≤ 0 := by
  refine c2_amended 2 1 1 (Real.exp (-2)) (by norm_num) (by norm_num) (by norm_num)
    (Real.exp_pos _) (Real.exp_lt_one_iff.mpr (by norm_num)) ?_
  have h : Real.exp 1 * Real.exp (-2) = Real.exp (-1) := by
    rw [← Real.exp_add]; norm_num
  rw [h]
  have h2 : Real.exp (-1) ≤ 1 / 2 := by
    rw [Real.exp_neg]
    rw [inv_le_comm₀ (Real.exp_pos 1) (by norm_num : (0 : ℝ) < 1 / 2)]
    have hh : ((1 : ℝ) / 2)⁻¹ = 2 := by norm_num
    rw [hh]
    linarith [Real.add_one_le_exp 1]
  calc Real.exp (-1) ≤ 1 / 2 := h2
    _ = 1 / (2 * 1) := by norm_num

/- ================================================================
   C7: swap-phase frame conditions.
   ================================================================ -/

/-- C7: for a paired chain couple the acceptance log-ratio is
`(L_c - L_a) * (T_a - T_c)`; on acceptance exactly species_set,
abundances, current_unk_prob and current_log_likelihood are exchanged,
while id, temperature, move counters and the prior history stay with
each chain; swap attempt counters increment always and both acceptance
counters increment exactly on accepted swaps. -/
theorem c7_swap_frame (a b : ChainState) (aIdx : ℕ) (u : ℝ) (iterNum : ℕ) :
    swapAlpha a b =
      (b.current_log_likelihood - a.current_log_likelihood) * (a.temperature - b.temperature)
    ∧ (swap_pair a b aIdx u iterNum).1.id = a.id
    ∧ (swap_pair a b aIdx u iterNum).2.id = b.id
    ∧ (swap_pair a b aIdx u iterNum).1.temperature = a.temperature
    ∧ (swap_pair a b aIdx u iterNum).2.temperature = b.temperature
    ∧ (swap_pair a b aIdx u iterNum).1.moves_attempted = a.moves_attempted
    ∧ (swap_pair a b aIdx u iterNum).2.moves_attempted = b.moves_attempted
    ∧ (swap_pair a b aIdx u iterNum).1.moves_accepted = a.moves_accepted
    ∧ (swap_pair a b aIdx u iterNum).2.moves_accepted = b.moves_accepted
    ∧ (swap_pair a b aIdx u iterNum).1.swaps_attempted = a.swaps_attempted + 1
    ∧ (swap_pair a b aIdx u iterNum).2.swaps_attempted = b.swaps_attempted + 1
    ∧ (∃ t, (swap_pair a b aIdx u iterNum).1.history = a.history ++ t)
    ∧ (∃ t, (swap_pair a b aIdx u iterNum).2.history = b.history ++ t)
    ∧ (swap_pair a b aIdx u iterNum).1.species_set =
        (if swapAccept a b u then b.species_set else a.species_set)
    ∧ (swap_pair a b aIdx u iterNum).2.species_set =
        (if swapAccept a b u then a.species_set else b.species_set)
    ∧ (swap_pair a b aIdx u iterNum).1.abundances =
        (if swapAccept a b u then b.abundances else a.abundances)
    ∧ (swap_pair a b aIdx u iterNum).2.abundances =
        (if swapAccept a b u then a.abundances else b.abundances)
    ∧ (swap_pair a b aIdx u iterNum).1.current_unk_prob =
        (if swapAccept a b u then b.current_unk_prob else a.current_unk_prob)
    ∧ (swap_pair a b aIdx u iterNum).2.current_unk_prob =
        (if swapAccept a b u then a.current_unk_prob else b.current_unk_prob)
    ∧ (swap_pair a b aIdx u iterNum).1.current_log_likelihood =
        (if swapAccept a b u then b.current_log_likelihood else a.current_log_likelihood)
    ∧ (swap_pair a b aIdx u iterNum).2.current_log_likelihood =
        (if swapAccept a b u then a.current_log_likelihood else b.current_log_likelihood)
    ∧ (swap_pair a b aIdx u iterNum).1.swaps_accepted =
        (if swapAccept a b u then a.swaps_accepted + 1 else a.swaps_accepted)
    ∧ (swap_pair a b aIdx u iterNum).2.swaps_accepted =
        (if swapAccept a b u then b.swaps_accepted + 1 else b.swaps_accepted) := by
  by_cases h : swapAccept a b u
  · simp [swap_pair, h, swapAlpha]
  · simp [swap_pair, h, swapAlpha]

/- ================================================================
   C5: history-record log-likelihood values.
   ================================================================ -/

/-- C5 counterexample: after an accepted swap between `chainA`
(T = 1/2) and `chainB` (T = 1/4), chain A's appended swap record stores
log-likelihood 2 (the incoming likelihood itself), NOT the tempered
value `2 * (1/2) = 1` that the claim prescribes for every history
record. -/
theorem c5_counterexample :
    ((swap_pair chainA chainB 0 0 5).1.history.getD 0
        { iter := 0, log_likelihood := 0, move_type := "" }).log_likelihood = 2
    ∧ (swap_pair chainA chainB 0 0 5).1.current_log_likelihood
        * (swap_pair chainA chainB 0 0 5).1.temperature = 1
    ∧ ((swap_pair chainA chainB 0 0 5).1.history.getD 0
        { iter := 0, log_likelihood := 0, move_type := "" }).log_likelihood ≠
      (swap_pair chainA chainB 0 0 5).1.current_log_likelihood
        * (swap_pair chainA chainB 0 0 5).1.temperature := by
  have hacc : swapAccept chainA chainB 0 := by
    left
    unfold swapAlpha chainA chainB
    norm_num
  refine ⟨?_, ?_, ?_⟩
  · unfold swap_pair
    rw [if_pos hacc]
    simp [chainA, chainB]
  · unfold swap_pair
    rw [if_pos hacc]
    simp [chainA, chainB]
  · unfold swap_pair
    rw [if_pos hacc]
    simp [chainA, chainB]

/-- C5 (amended): every record appended by an MH step (None, accepted
or rejected move) stores `log_likelihood = current_log_likelihood * T`
evaluated at the state holding after the step; swap-event records
instead store the incoming `current_log_likelihood` itself, without the
temperature factor. -/
theorem c5_amended (ctx : McmcContext) (st : ChainState) (move : Move)
    (init_abund : List (ℕ × ℝ)) (u : ℝ) (current_iter em_iterations : ℕ)
    (a b : ChainState) (aIdx : ℕ) (us : ℝ) (iterNum : ℕ) :
    (∃ s3 : String,
      (run_chain_step ctx st move init_abund u current_iter em_iterations).history
        = st.history ++
          [{ iter := current_iter
             log_likelihood :=
               (run_chain_step ctx st move init_abund u current_iter
                  em_iterations).current_log_likelihood * st.temperature
             move_type := s3 }])
    ∧ ((swap_pair a b aIdx us iterNum).1.history
        = a.history ++
          (if swapAccept a b us then
            [{ iter := iterNum
               log_likelihood := (swap_pair a b aIdx us iterNum).1.current_log_likelihood
               move_type := "Swapped from Chain " ++ toString (aIdx + 1) }]
          else []))
    ∧ ((swap_pair a b aIdx us iterNum).2.history
        = b.history ++
          (if swapAccept a b us then
            [{ iter := iterNum
               log_likelihood := (swap_pair a b aIdx us iterNum).2.current_log_likelihood
               move_type := "Swapped from Chain " ++ toString aIdx }]
          else [])) := by
  refine ⟨?_, ?_, ?_⟩
  · cases move with
    | None => exact ⟨"None", by simp [run_chain_step]⟩
    | Add id =>
      by_cases h : 0 ≤ chain_step_log_alpha ctx st (Move.Add id) init_abund em_iterations
          ∨ u < Real.exp (chain_step_log_alpha ctx st (Move.Add id) init_abund em_iterations)
      · exact ⟨moveString (Move.Add id), by simp [run_chain_step, h]⟩
      · exact ⟨"Reject", by simp [run_chain_step, h]⟩
    | Remove id =>
      by_cases h : 0 ≤ chain_step_log_alpha ctx st (Move.Remove id) init_abund em_iterations
          ∨ u < Real.exp (chain_step_log_alpha ctx st (Move.Remove id) init_abund em_iterations)
      · exact ⟨moveString (Move.Remove id), by simp [run_chain_step, h]⟩
      · exact ⟨"Reject", by simp [run_chain_step, h]⟩
    | Swap rem add =>
      by_cases h : 0 ≤ chain_step_log_alpha ctx st (Move.Swap rem add) init_abund em_iterations
          ∨ u < Real.exp (chain_step_log_alpha ctx st (Move.Swap rem add) init_abund em_iterations)
      · exact ⟨moveString (Move.Swap rem add), by simp [run_chain_step, h]⟩
      · exact ⟨"Reject", by simp [run_chain_step, h]⟩
  · by_cases h2 : swapAccept a b us
    all_goals simp [swap_pair, h2]
  · by_cases h2 : swapAccept a b us
    all_goals simp [swap_pair, h2]

/- ================================================================
   C6: MH acceptance ratio.
   ================================================================ -/

/-- C6: for every concrete (non-None) MH move, the code's total log
acceptance ratio equals the spec's
`T * (new_penalized - current_penalized) + log q_rev - log q_fwd`
(with the reverse picks evaluated under the proposed set and proposed
abundances), and the move is accepted — the chain's accepted-move
counter increments — iff that ratio is ≥ 0 or the uniform satisfies
`u < exp(ratio)`. -/
theorem c6_mh_acceptance (ctx : McmcContext) (st : ChainState) (move : Move)
    (init_abund : List (ℕ × ℝ)) (u : ℝ) (current_iter em_iterations : ℕ)
    (hmv : move ≠ Move.None) :
    chain_step_log_alpha ctx st move init_abund em_iterations
      = specMhAlpha ctx st move init_abund em_iterations
    ∧ (((run_chain_step ctx st move init_abund u current_iter
          em_iterations).moves_accepted = st.moves_accepted + 1)
        ↔ (0 ≤ specMhAlpha ctx st move init_abund em_iterations
            ∨ u < Real.exp (specMhAlpha ctx st move init_abund em_iterations))) := by
  have heq : chain_step_log_alpha ctx st move init_abund em_iterations
      = specMhAlpha ctx st move init_abund em_iterations := by
    cases move with
    | None => exact absurd rfl hmv
    | Add id => simp only [chain_step_log_alpha, specMhAlpha]; ring
    | Remove id => simp only [chain_step_log_alpha, specMhAlpha]; ring
    | Swap rem add => simp only [chain_step_log_alpha, specMhAlpha]; ring
  refine ⟨heq, ?_⟩
  rw [← heq]
  cases move with
  | None => exact absurd rfl hmv
  | Add id =>
    by_cases h : 0 ≤ chain_step_log_alpha ctx st (Move.Add id) init_abund em_iterations
        ∨ u < Real.exp (chain_step_log_alpha ctx st (Move.Add id) init_abund em_iterations)
    · simp [run_chain_step, h]
    · simp [run_chain_step, h]
  | Remove id =>
    by_cases h : 0 ≤ chain_step_log_alpha ctx st (Move.Remove id) init_abund em_iterations
        ∨ u < Real.exp (chain_step_log_alpha ctx st (Move.Remove id) init_abund em_iterations)
    · simp [run_chain_step, h]
    · simp [run_chain_step, h]
  | Swap rem add =>
    by_cases h : 0 ≤ chain_step_log_alpha ctx st (Move.Swap rem add) init_abund em_iterations
        ∨ u < Real.exp (chain_step_log_alpha ctx st (Move.Swap rem add) init_abund em_iterations)
    · simp [run_chain_step, h]
    · simp [run_chain_step, h]

/- ================================================================
   Generic facts about one mini-EM iteration.
   ================================================================ -/

lemma em_step_floor (ctx : McmcContext) (active : List ℕ) (k : ℕ) (st : EmSt) :
    (em_step ctx active k st).floor = emFloorNext ctx active k st := by
  simp only [em_step]
  split <;> rfl

lemma em_step_abund_pos (ctx : McmcContext) (active : List ℕ) (k : ℕ) (st : EmSt)
    (h : 0 < (emNextAbund ctx active st).sum + emNextUnk ctx active st) :
    (em_step ctx active k st).abund =
      (emNextAbund ctx active st).map
        (fun x => x / ((emNextAbund ctx active st).sum + emNextUnk ctx active st))
    ∧ (em_step ctx active k st).unk =
      emNextUnk ctx active st / ((emNextAbund ctx active st).sum + emNextUnk ctx active st) := by
  simp only [em_step]
  rw [if_pos h]
  exact ⟨rfl, rfl⟩

lemma emNextAbund_length (ctx : McmcContext) (active : List ℕ) (st : EmSt) :
    (emNextAbund ctx active st).length = active.length := by
  simp [emNextAbund]

lemma em_step_abund_length (ctx : McmcContext) (active : List ℕ) (k : ℕ) (st : EmSt) :
    (em_step ctx active k st).abund.length = active.length := by
  simp only [em_step]
  split
  · simp [emNextAbund_length]
  · simp

lemma emStateAt_abund_length (ctx : McmcContext) (active : List ℕ)
    (init : List (ℕ × ℝ)) (c : ℝ) (k : ℕ) :
    (emStateAt ctx active init c k).abund.length = active.length := by
  cases k with
  | zero => simp [emStateAt, emInit]
  | succ n => simp only [emStateAt]; exact em_step_abund_length ..

lemma emNextAbund_zero (ctx : McmcContext) (active : List ℕ) (st : EmSt)
    (pos : ℕ) (hp : pos < active.length) (h0 : st.abund.getD pos 0 = 0) :
    (emNextAbund ctx active st).getD pos 0 = 0 := by
  unfold emNextAbund
  rw [List.getD_eq_getElem _ _ (by simpa using hp)]
  simp only [List.getElem_map, List.getElem_range, h0, mul_zero]
  simp

lemma em_step_zero (ctx : McmcContext) (active : List ℕ) (k : ℕ) (st : EmSt)
    (pos : ℕ) (hp : pos < active.length) (h0 : st.abund.getD pos 0 = 0)
    (htot : 0 < (emNextAbund ctx active st).sum + emNextUnk ctx active st) :
    (em_step ctx active k st).abund.getD pos 0 = 0 := by
  obtain ⟨ha, _⟩ := em_step_abund_pos ctx active k st htot
  rw [ha]
  have hlen : pos < (emNextAbund ctx active st).length := by
    rw [emNextAbund_length]; exact hp
  rw [List.getD_eq_getElem _ _ (by simpa using hlen), List.getElem_map]
  rw [← List.getD_eq_getElem _ (0 : ℝ) hlen, emNextAbund_zero ctx active st pos hp h0]
  simp

/-- C10: a species of the active subset that is absent from the initial
abundance map (or has initial abundance 0) has abundance exactly 0
after the initial normalisation and after every EM iteration whose
total mass is positive (the multiplicative update cannot revive it);
consequently it is returned with final abundance 0 in the absence of a
uniform reset. -/
theorem c10_zero_abundance_persists (ctx : McmcContext) (active : List ℕ)
    (init : List (ℕ × ℝ)) (c : ℝ) (iterations pos : ℕ)
    (hp : pos < active.length)
    (h0 : lookupAbund init (active.getD pos 0) = 0)
    (hres : ∀ k < iterations,
      0 < (emNextAbund ctx active (emStateAt ctx active init c k)).sum
          + emNextUnk ctx active (emStateAt ctx active init c k)) :
    (∀ k ≤ iterations, (emStateAt ctx active init c k).abund.getD pos 0 = 0)
    ∧ (run_mini_em ctx active init c iterations).2.1.getD pos (0, 0)
        = (active.getD pos 0, 0) := by
  have hall : ∀ k ≤ iterations, (emStateAt ctx active init c k).abund.getD pos 0 = 0 := by
    intro k hk
    induction k with
    | zero =>
      simp only [emStateAt, emInit]
      have hp' : pos < (active.map (fun idx => lookupAbund init idx)).length := by
        simpa using hp
      rw [List.getD_eq_getElem _ _ (by simpa using hp'), List.getElem_map,
        ← List.getD_eq_getElem _ (0 : ℝ) hp', List.getD_eq_getElem _ _ hp',
        List.getElem_map, ← List.getD_eq_getElem _ (0 : ℕ) hp, h0]
      simp
    | succ n ih =>
      have hn : n ≤ iterations := le_of_lt (lt_of_lt_of_le (Nat.lt_succ_self n) hk)
      simp only [emStateAt]
      exact em_step_zero ctx active n (emStateAt ctx active init c n) pos hp (ih hn)
        (hres n (lt_of_lt_of_le (Nat.lt_succ_self n) hk))
  refine ⟨hall, ?_⟩
  unfold run_mini_em
  have hlen : pos < (active.zip (emStateAt ctx active init c iterations).abund).length := by
    rw [List.length_zip, emStateAt_abund_length]
    simpa using hp
  have hpa : pos < (emStateAt ctx active init c iterations).abund.length := by
    rw [emStateAt_abund_length]; exact hp
  rw [List.getD_eq_getElem _ _ hlen, List.getElem_zip]
  have h1 : active[pos] = active.getD pos 0 := (List.getD_eq_getElem _ _ hp).symm
  have h2 : (emStateAt ctx active init c iterations).abund[pos] = 0 := by
    rw [← List.getD_eq_getElem _ (0 : ℝ) hpa]
    exact hall iterations le_rfl
  rw [h1, h2]

/- ================================================================
   C4: the adaptive floor update.  Concrete context: one read fully
   aligned to the single taxon (log-probability 0, so linear
   probability 1).
   ================================================================ -/

lemma ctxC4_matrix : ctxC4.matrix = [[(0, 1)]] := by
  simp [ctxC4, McmcContext.new]

lemma ctxC4_weights : ctxC4.read_weights = [1] := rfl

/-- One mini-EM iteration on `ctxC4` with active set `{0}`: closed-form
update of the abundance / unknown mass; the floor is untouched because
only one read can ever enter `valid_aligns` (the gate requires more
than 10). -/
lemma c4_step (k : ℕ) (a u L : ℝ) (ha : 1 / 4 ≤ a) (hu : 0 ≤ u) :
    em_step ctxC4 [0] k { abund := [a], unk := u, floor := 1e-5, logL := L } =
      { abund := [a / (a + 1e-5 * u)], unk := (1e-5 * u) / (a + 1e-5 * u),
        floor := 1e-5, logL := 1 * Real.log (a + 1e-5 * u + 1e-300) } := by
  have hden : rowDen [0] [a] [(0, 1)] = a := by
    simp [rowDen, List.findIdx?_cons]
  have hpos : rowPosSum [(0, 1)] 0 [0] = 1 := by
    simp [rowPosSum, List.findIdx?_cons, List.filter]
  have hsafe : (0 : ℝ) < a + 1e-5 * u + 1e-300 := by nlinarith
  have hnA : emNextAbund ctxC4 [0]
      { abund := [a], unk := u, floor := 1e-5, logL := L }
      = [(1 / (a + 1e-5 * u + 1e-300)) * 1 * a] := by
    simp only [emNextAbund, ctxC4_matrix, ctxC4_weights]
    have hr : List.range 1 = [0] := rfl
    simp [hr, hden, hpos, List.zip]
  have hnU : emNextUnk ctxC4 [0]
      { abund := [a], unk := u, floor := 1e-5, logL := L }
      = (1 / (a + 1e-5 * u + 1e-300)) * (1e-5 * u) := by
    simp only [emNextUnk, ctxC4_matrix, ctxC4_weights]
    simp [hden, List.zip]
  have htotval : ([(1 / (a + 1e-5 * u + 1e-300)) * 1 * a] : List ℝ).sum
      + (1 / (a + 1e-5 * u + 1e-300)) * (1e-5 * u)
      = (a + 1e-5 * u) / (a + 1e-5 * u + 1e-300) := by
    rw [List.sum_cons, List.sum_nil]
    field_simp
  have habu : (0 : ℝ) < a + 1e-5 * u := by nlinarith
  have htot : 0 < (emNextAbund ctxC4 [0]
        { abund := [a], unk := u, floor := 1e-5, logL := L }).sum
      + emNextUnk ctxC4 [0] { abund := [a], unk := u, floor := 1e-5, logL := L } := by
    rw [hnA, hnU, htotval]
    positivity
  have hflo : emFloorNext ctxC4 [0] k
      { abund := [a], unk := u, floor := 1e-5, logL := L } = 1e-5 := by
    unfold emFloorNext
    have hvd : emValidDens ctxC4 [0]
        { abund := [a], unk := u, floor := 1e-5, logL := L } = [a] := by
      simp only [emValidDens, ctxC4_matrix, ctxC4_weights]
      simp only [List.zip, List.zipWith, List.map]
      rw [hden]
      rw [List.filter_cons, if_pos (by rw [decide_eq_true_iff]; nlinarith)]
      simp
    by_cases hk : 1 < k
    · rw [if_pos hk, hvd]
      rw [if_neg (by simp)]
    · rw [if_neg hk]
      rw [if_neg (by simp [hk])]
  have hlogl : emIterLogL ctxC4 [0]
      { abund := [a], unk := u, floor := 1e-5, logL := L }
      = 1 * Real.log (a + 1e-5 * u + 1e-300) := by
    simp only [emIterLogL, ctxC4_matrix, ctxC4_weights]
    simp [hden, List.zip]
  simp only [em_step]
  rw [if_pos htot]
  ext : 1
  · dsimp only
    rw [hnA, hnU, htotval]
    simp only [List.map_cons, List.map_nil]
    congr 1
    rw [div_eq_div_iff (ne_of_gt (div_pos habu hsafe)) (ne_of_gt habu)]
    ring
  · dsimp only
    rw [hnA, hnU, htotval]
    rw [div_eq_div_iff (ne_of_gt (div_pos habu hsafe)) (ne_of_gt habu)]
    ring
  · exact hflo
  · exact hlogl

lemma c4_state0 : emStateAt ctxC4 [0] [(0, 1)] 1e-5 0 =
    { abund := [100 / 101], unk := 1 / 101, floor := 1e-5, logL := 0 } := by
  ext : 1
  · show (emInit [0] [(0, 1)] 1e-5).abund = _
    simp [emInit, lookupAbund, List.find?]
    norm_num
  · show (emInit [0] [(0, 1)] 1e-5).unk = _
    simp [emInit, lookupAbund, List.find?]
    norm_num
  · rfl
  · rfl

lemma c4_invariant (k : ℕ) : ∃ a u,
    (emStateAt ctxC4 [0] [(0, 1)] 1e-5 k).abund = [a]
    ∧ (emStateAt ctxC4 [0] [(0, 1)] 1e-5 k).unk = u
    ∧ (emStateAt ctxC4 [0] [(0, 1)] 1e-5 k).floor = 1e-5
    ∧ 1 / 4 ≤ a ∧ a ≤ 1 ∧ 0 ≤ u ∧ u ≤ 1 := by
  induction k with
  | zero =>
    refine ⟨100 / 101, 1 / 101, ?_, ?_, ?_, by norm_num, by norm_num, by norm_num, by norm_num⟩
    · rw [c4_state0]
    · rw [c4_state0]
    · rw [c4_state0]
  | succ n ih =>
    obtain ⟨a, u, hab, hun, hfl, ha4, ha1, hu0, hu1⟩ := ih
    have hrec : emStateAt ctxC4 [0] [(0, 1)] 1e-5 n =
        { abund := [a], unk := u, floor := 1e-5,
          logL := (emStateAt ctxC4 [0] [(0, 1)] 1e-5 n).logL } := by
      ext : 1
      · exact hab
      · exact hun
      · exact hfl
      · rfl
    have hstep : emStateAt ctxC4 [0] [(0, 1)] 1e-5 (n + 1)
        = em_step ctxC4 [0] n (emStateAt ctxC4 [0] [(0, 1)] 1e-5 n) := rfl
    have hnew := c4_step n a u ((emStateAt ctxC4 [0] [(0, 1)] 1e-5 n).logL) ha4 hu0
    have habu : (0 : ℝ) < a + 1e-5 * u := by nlinarith
    refine ⟨a / (a + 1e-5 * u), 1e-5 * u / (a + 1e-5 * u), ?_, ?_, ?_, ?_, ?_, ?_, ?_⟩
    · rw [hstep, hrec, hnew]
    · rw [hstep, hrec, hnew]
    · rw [hstep, hrec, hnew]
    · rw [le_div_iff₀ habu]; nlinarith
    · rw [div_le_one habu]; nlinarith
    · exact div_nonneg (by nlinarith) (le_of_lt habu)
    · rw [div_le_one habu]; nlinarith

lemma c4_validDens (st : EmSt) (a : ℝ) (hab : st.abund = [a]) (ha : 1 / 4 ≤ a) :
    emValidDens ctxC4 [0] st = [a] := by
  have hden : rowDen [0] st.abund [(0, 1)] = a := by
    rw [hab]
    simp [rowDen, List.findIdx?_cons]
  simp only [emValidDens, ctxC4_matrix, ctxC4_weights]
  simp only [List.zip, List.zipWith, List.map]
  rw [hden]
  rw [List.filter_cons, if_pos (by rw [decide_eq_true_iff]; nlinarith)]
  simp

/-- C4 counterexample: in a mini-EM run on `ctxC4` (one read, fully
aligned to the single active taxon), at 0-based iteration 2 exactly one
read has `den_known > 1e-300`, yet the floor returned after 3
iterations is the unchanged 1e-5: the code updates the floor only when
MORE THAN 10 reads qualify, while the claim prescribes the damped
update for "at least one", whose value here would differ from 1e-5. -/
theorem c4_counterexample :
    (emValidDens ctxC4 [0] (emStateAt ctxC4 [0] [(0, 1)] 1e-5 2)).length = 1
    ∧ (1e-300 : ℝ) <
        (emValidDens ctxC4 [0] (emStateAt ctxC4 [0] [(0, 1)] 1e-5 2)).getD 0 0
    ∧ (run_mini_em ctxC4 [0] [(0, 1)] 1e-5 3).2.2 = 1e-5
    ∧ spec_floor_update 1e-5
        ((emValidDens ctxC4 [0] (emStateAt ctxC4 [0] [(0, 1)] 1e-5 2)).getD 0 0)
      ≠ 1e-5 := by
  obtain ⟨a, u, hab, hun, hfl, ha4, ha1, hu0, hu1⟩ := c4_invariant 2
  have hvd := c4_validDens (emStateAt ctxC4 [0] [(0, 1)] 1e-5 2) a hab ha4
  obtain ⟨a3, u3, hab3, hun3, hfl3, _, _, _, _⟩ := c4_invariant 3
  refine ⟨by rw [hvd]; rfl, ?_, ?_, ?_⟩
  · rw [hvd]
    show (1e-300 : ℝ) < a
    nlinarith
  · show (emStateAt ctxC4 [0] [(0, 1)] 1e-5 3).floor = 1e-5
    exact hfl3
  · rw [hvd]
    show spec_floor_update 1e-5 a ≠ 1e-5
    unfold spec_floor_update
    rw [max_eq_right (by nlinarith), min_eq_right (by nlinarith)]
    exact ne_of_lt (by nlinarith)

/-- C4 (amended): the floor update at a 0-based iteration `k` happens
iff `k > 1` AND more than 10 reads have `den_known > 1e-300`; it then
sets `clamp(0.8 * p_unk + 0.2 * m * 1e-12, 1e-300, 1e-5)` with `m` the
`len/2`-th smallest qualifying `den_known`; otherwise the floor is
unchanged.  In particular a matrix with at most 10 rows never updates
the floor: `run_mini_em` returns the start floor unchanged. -/
theorem c4_amended (ctx : McmcContext) (active : List ℕ) (init : List (ℕ × ℝ))
    (c : ℝ) (iterations k : ℕ) (st : EmSt) :
    ((em_step ctx active k st).floor =
      if 1 < k ∧ 10 < (emValidDens ctx active st).length then
        min 1e-5 (max 1e-300
          (0.8 * st.floor + 0.2 *
            (((emValidDens ctx active st).mergeSort (fun x y => decide (x ≤ y))).getD
              ((emValidDens ctx active st).length / 2) 0 * 1e-12)))
      else st.floor)
    ∧ (ctx.matrix.length ≤ 10 → (run_mini_em ctx active init c iterations).2.2 = c) := by
  constructor
  · rw [em_step_floor]
    simp only [emFloorNext]
    by_cases hk : 1 < k
    · rw [if_pos hk]
      by_cases hl : 10 < (emValidDens ctx active st).length
      · rw [if_pos ⟨hk, hl⟩]
        conv_rhs => rw [if_pos ⟨hk, hl⟩]
        by_cases h1 : 0.8 * st.floor + 0.2 *
            (((emValidDens ctx active st).mergeSort (fun x y => decide (x ≤ y))).getD
              ((emValidDens ctx active st).length / 2) 0 * 1e-12) < 1e-300
        · rw [if_pos h1, if_neg (by norm_num)]
          rw [max_eq_left (le_of_lt h1), min_eq_right (by norm_num)]
        · rw [if_neg h1]
          push_neg at h1
          by_cases h2 : (1e-5 : ℝ) < 0.8 * st.floor + 0.2 *
              (((emValidDens ctx active st).mergeSort (fun x y => decide (x ≤ y))).getD
                ((emValidDens ctx active st).length / 2) 0 * 1e-12)
          · rw [if_pos h2, max_eq_right h1, min_eq_left (le_of_lt h2)]
          · rw [if_neg h2, max_eq_right h1, min_eq_right (not_lt.mp h2)]
      · rw [if_neg (fun h => hl h.2)]
        rw [if_neg (fun h => hl h.2)]
    · rw [if_neg hk]
      rw [if_neg (fun h => hk h.1)]
      rw [if_neg (fun h => hk h.1)]
  · intro hm
    have hconst : ∀ j, (emStateAt ctx active init c j).floor = c := by
      intro j
      induction j with
      | zero => rfl
      | succ n ih =>
        show (em_step ctx active n (emStateAt ctx active init c n)).floor = c
        rw [em_step_floor]
        simp only [emFloorNext]
        have hlen : (emValidDens ctx active (emStateAt ctx active init c n)).length ≤ 10 := by
          calc (emValidDens ctx active (emStateAt ctx active init c n)).length
              ≤ ((ctx.matrix.zip ctx.read_weights).map
                  (fun rw => rowDen active (emStateAt ctx active init c n).abund rw.1)).length :=
                List.length_filter_le _ _
            _ = (ctx.matrix.zip ctx.read_weights).length := List.length_map _ _
            _ ≤ ctx.matrix.length := by rw [List.length_zip]; exact min_le_left _ _
            _ ≤ 10 := hm
        by_cases hk : 1 < n
        · rw [if_pos hk, if_neg (fun h => absurd h.2 (Nat.not_lt.mpr hlen))]
          exact ih
        · rw [if_neg hk, if_neg (fun h => hk h.1)]
          exact ih
    show (emStateAt ctx active init c iterations).floor = c
    exact hconst iterations

lemma ctxC4b_matrix : ctxC4b.matrix = List.replicate 11 [(0, 1)] := by
  simp [ctxC4b, McmcContext.new, List.map_replicate]

lemma ctxC4b_weights : ctxC4b.read_weights = List.replicate 11 1 := rfl

lemma c4b_validDens : emValidDens ctxC4b [0] stC4b = List.replicate 11 1 := by
  have hden : rowDen [0] stC4b.abund [(0, 1)] = 1 := by
    simp [stC4b, rowDen, List.findIdx?_cons]
  simp only [emValidDens, ctxC4b_matrix, ctxC4b_weights, List.zip_replicate,
    min_self, List.map_replicate, hden]
  rw [List.filter_replicate, if_pos (decide_eq_true (by norm_num : (1e-300 : ℝ) < 1))]

lemma c4b_median :
    ((List.replicate 11 (1 : ℝ)).mergeSort (fun x y => decide (x ≤ y))).getD (11 / 2) 0
      = 1 := by
  have hms : (List.replicate 11 (1 : ℝ)).mergeSort (fun x y => decide (x ≤ y))
      = List.replicate 11 1 :=
    List.perm_replicate.mp (List.mergeSort_perm _ _)
  rw [hms, List.getD_eq_getElem _ _ (by simp)]
  simp

/-- Witness for `c4_amended`: the unchanged-branch facts on the
one-read context, and the firing update branch on the eleven-read
context `ctxC4b`, where the floor actually becomes
`0.8 * 1e-5 + 0.2 * (1 * 1e-12)` (median `den_known` = 1, clamps
inactive). -/
theorem c4_amended_witness :
    ((em_step ctxC4 [0] 2 (emInit [0] [(0, 1)] 1e-5)).floor =
      if 1 < 2 ∧ 10 < (emValidDens ctxC4 [0] (emInit [0] [(0, 1)] 1e-5)).length then
        min 1e-5 (max 1e-300
          (0.8 * (emInit [0] [(0, 1)] 1e-5).floor + 0.2 *
            (((emValidDens ctxC4 [0] (emInit [0] [(0, 1)] 1e-5)).mergeSort
                (fun x y => decide (x ≤ y))).getD
              ((emValidDens ctxC4 [0] (emInit [0] [(0, 1)] 1e-5)).length / 2) 0 * 1e-12)))
      else (emInit [0] [(0, 1)] 1e-5).floor)
    ∧ (run_mini_em ctxC4 [0] [(0, 1)] 1e-5 3).2.2 = 1e-5
    ∧ 10 < (emValidDens ctxC4b [0] stC4b).length
    ∧ (em_step ctxC4b [0] 2 stC4b).floor = 0.8 * 1e-5 + 0.2 * (1 * 1e-12) := by
  refine ⟨(c4_amended ctxC4 [0] [(0, 1)] 1e-5 3 2 (emInit [0] [(0, 1)] 1e-5)).1,
    (c4_amended ctxC4 [0] [(0, 1)] 1e-5 3 2 (emInit [0] [(0, 1)] 1e-5)).2
      (by rw [ctxC4_matrix]; norm_num), ?_, ?_⟩
  · rw [c4b_validDens]
    simp
  · rw [(c4_amended ctxC4b [0] [] 0 0 2 stC4b).1]
    rw [c4b_validDens]
    rw [if_pos ⟨by norm_num, by simp⟩]
    have hlen : (List.replicate 11 (1 : ℝ)).length = 11 := by simp
    rw [hlen, c4b_median]
    have hfl : stC4b.floor = 1e-5 := rfl
    rw [hfl]
    rw [max_eq_right (by norm_num), min_eq_right (by norm_num)]

lemma c10_state0 : emStateAt ctxC4 [0, 1] [(0, 1)] 1e-5 0 =
    { abund := [100 / 101, 0], unk := 1 / 101, floor := 1e-5, logL := 0 } := by
  ext : 1
  · show (emInit [0, 1] [(0, 1)] 1e-5).abund = _
    simp [emInit, lookupAbund, List.find?]
    norm_num
  · show (emInit [0, 1] [(0, 1)] 1e-5).unk = _
    simp [emInit, lookupAbund, List.find?]
    norm_num
  · rfl
  · rfl

/-- Witness for `c10_zero_abundance_persists`: one mini-EM iteration on
the one-read context with active set `{0, 1}`, taxon 1 absent from the
initial abundance map. -/
theorem c10_witness :
    (∀ k ≤ 1, (emStateAt ctxC4 [0, 1] [(0, 1)] 1e-5 k).abund.getD 1 0 = 0)
    ∧ (run_mini_em ctxC4 [0, 1] [(0, 1)] 1e-5 1).2.1.getD 1 (0, 0)
        = (([0, 1] : List ℕ).getD 1 0, 0) := by
  refine c10_zero_abundance_persists ctxC4 [0, 1] [(0, 1)] 1e-5 1 1
    (by norm_num) (by simp [lookupAbund]) ?_
  intro k hk
  have hk0 : k = 0 := by omega
  subst hk0
  rw [c10_state0]
  have hr2 : List.range 2 = [0, 1] := rfl
  simp only [emNextAbund, emNextUnk, rowDen, rowPosSum, ctxC4_matrix, ctxC4_weights,
    List.zip, List.zipWith, hr2, List.map, List.filter, List.findIdx?_cons,
    List.findIdx?_nil]
  norm_num

lemma ctxC1_matrix : ctxC1.matrix = [[], []] := rfl

lemma ctxC1_weights : ctxC1.read_weights = [1, 1] := rfl

lemma ctxC1_lp : ctxC1.lpenalty = lpenalty_calc 2 1 100 (1 / 2) := by
  show lpenalty_calc ([(1 : ℝ), 1].sum) ((1 : ℕ) : ℝ) 100 (1 / 2) = _
  norm_num

/-- One mini-EM iteration on the empty-row context: the unknown bin
absorbs everything, abundances collapse to 0, the floor is untouched
and the iteration log-likelihood is `2 * log(floor * unk + 1e-300)`. -/
lemma c1_step (active : List ℕ) (k : ℕ) (st : EmSt) (h : 0 < st.floor * st.unk) :
    em_step ctxC1 active k st =
      { abund := List.replicate active.length 0, unk := 1, floor := st.floor,
        logL := 2 * Real.log (st.floor * st.unk + 1e-300) } := by
  have hden : ∀ ab : List ℝ, rowDen active ab [] = 0 := by
    intro ab; simp [rowDen]
  have hpos : ∀ p, rowPosSum [] p active = 0 := by
    intro p; simp [rowPosSum]
  have hsafe : (0 : ℝ) < st.floor * st.unk + 1e-300 := by nlinarith
  have hnA : emNextAbund ctxC1 active st = List.replicate active.length 0 := by
    simp only [emNextAbund, ctxC1_matrix, ctxC1_weights, List.zip, List.zipWith,
      List.map, hden, hpos, mul_zero, zero_mul, List.sum_cons, List.sum_nil, add_zero]
    rw [List.map_const']
    simp
  have hnU : emNextUnk ctxC1 active st
      = 2 * (st.floor * st.unk / (st.floor * st.unk + 1e-300)) := by
    simp only [emNextUnk, ctxC1_matrix, ctxC1_weights, List.zip, List.zipWith,
      List.map, hden, List.sum_cons, List.sum_nil, add_zero, zero_add]
    ring
  have hU : (0 : ℝ) < 2 * (st.floor * st.unk / (st.floor * st.unk + 1e-300)) := by
    positivity
  have htot : 0 < (emNextAbund ctxC1 active st).sum + emNextUnk ctxC1 active st := by
    rw [hnA, hnU, List.sum_replicate]
    simpa using hU
  have hvd : emValidDens ctxC1 active st = [] := by
    simp only [emValidDens, ctxC1_matrix, ctxC1_weights, List.zip, List.zipWith,
      List.map, hden]
    have hf : decide ((1e-300 : ℝ) < 0) = false := decide_eq_false (by norm_num)
    simp [List.filter, hf]
  have hflo : emFloorNext ctxC1 active k st = st.floor := by
    simp only [emFloorNext, hvd]
    by_cases hk : 1 < k
    · rw [if_pos hk, if_neg (by simp)]
    · rw [if_neg hk, if_neg (by simp [hk])]
  have hlogl : emIterLogL ctxC1 active st
      = 2 * Real.log (st.floor * st.unk + 1e-300) := by
    simp only [emIterLogL, ctxC1_matrix, ctxC1_weights, List.zip, List.zipWith,
      List.map, hden, List.sum_cons, List.sum_nil, add_zero, zero_add]
    ring
  simp only [em_step]
  rw [if_pos htot]
  ext : 1
  · dsimp only
    rw [hnA, hnU, List.sum_replicate, List.map_replicate]
    congr 1
    simp
  · dsimp only
    rw [hnA, hnU, List.sum_replicate]
    have : ((active.length : ℕ) • (0 : ℝ)) = 0 := by simp
    rw [this, zero_add, div_self (ne_of_gt hU)]
  · exact hflo
  · exact hlogl

/-- On `ctxC1` every mini-EM run of ≥ 2 iterations started at floor
`1e-5` ends with `logL = 2 * log(1e-5 + 1e-300)`, independently of the
active set and the initial abundances. -/
lemma c1_final_logL (active : List ℕ) (init : List (ℕ × ℝ))
    (h0 : 0 < (emInit active init 1e-5).unk) :
    (run_mini_em ctxC1 active init 1e-5 10).1 = 2 * Real.log (1e-5 + 1e-300) := by
  have hif : (emInit active init 1e-5).floor = 1e-5 := rfl
  have haux : ∀ k, (emStateAt ctxC1 active init 1e-5 (k + 1)).abund
        = List.replicate active.length 0
      ∧ (emStateAt ctxC1 active init 1e-5 (k + 1)).unk = 1
      ∧ (emStateAt ctxC1 active init 1e-5 (k + 1)).floor = 1e-5 := by
    intro k
    induction k with
    | zero =>
      have h : 0 < (emInit active init 1e-5).floor * (emInit active init 1e-5).unk := by
        rw [hif]; positivity
      have hstep : emStateAt ctxC1 active init 1e-5 (0 + 1)
          = em_step ctxC1 active 0 (emInit active init 1e-5) := rfl
      rw [hstep, c1_step active 0 _ h, hif]
      exact ⟨rfl, rfl, rfl⟩
    | succ n ih =>
      obtain ⟨hab, hun, hfl⟩ := ih
      have h : 0 < (emStateAt ctxC1 active init 1e-5 (n + 1)).floor
          * (emStateAt ctxC1 active init 1e-5 (n + 1)).unk := by
        rw [hun, hfl]; norm_num
      have hstep : emStateAt ctxC1 active init 1e-5 (n + 1 + 1)
          = em_step ctxC1 active (n + 1) (emStateAt ctxC1 active init 1e-5 (n + 1)) := rfl
      rw [hstep, c1_step active (n + 1) _ h, hfl]
      exact ⟨rfl, rfl, rfl⟩
  obtain ⟨hab, hun, hfl⟩ := haux 8
  have h : 0 < (emStateAt ctxC1 active init 1e-5 9).floor
      * (emStateAt ctxC1 active init 1e-5 9).unk := by
    rw [hun, hfl]; norm_num
  show (emStateAt ctxC1 active init 1e-5 10).logL = _
  have h10 : emStateAt ctxC1 active init 1e-5 10
      = em_step ctxC1 active 9 (emStateAt ctxC1 active init 1e-5 9) := rfl
  rw [h10, c1_step active 9 _ h, hfl, hun]
  norm_num

lemma c1_floor_med : learned_floor_of [coldC1] = 1e-5 := by
  simp [learned_floor_of, List.mergeSort_singleton, coldC1]

lemma c1_h0_run : (run_mini_em ctxC1 [] [] 1e-5 10).1
    = 2 * Real.log (1e-5 + 1e-300) := by
  apply c1_final_logL
  show (0 : ℝ) < 0.01 / (([] : List ℝ).sum + 0.01)
  norm_num

lemma c1_h1_run : (run_mini_em ctxC1 [0] [(0, 1)] 1e-5 10).1
    = 2 * Real.log (1e-5 + 1e-300) := by
  apply c1_final_logL
  show (0 : ℝ) < 0.01 / ((([0] : List ℕ).map
    (fun idx => lookupAbund [(0, 1)] idx)).sum + 0.01)
  simp [lookupAbund, List.find?]
  norm_num

/-- C1 counterexample: on `ctxC1` / `coldC1` the Bayes factor computed
by the code for taxon 0 is `2 * L_penalty / ln 10`, while the claim's
formula `(L(S*) - L(S* \ {0}) + L_penalty) / ln 10` (with `L` the
unpenalized 10-iteration mini-EM log-likelihood at the learned floor)
evaluates to `L_penalty / ln 10`; the two differ because the code's
`h1_log_l` is the cold chain's PENALIZED likelihood and `L_penalty ≠ 0`
here. -/
theorem c1_counterexample :
    bayes_factor_log10 ctxC1 coldC1 (learned_floor_of [coldC1]) 0 []
      = 2 * ctxC1.lpenalty / Real.log 10
    ∧ ((run_mini_em ctxC1 [0] [(0, 1)] (learned_floor_of [coldC1]) 10).1
        - (run_mini_em ctxC1 [] [] (learned_floor_of [coldC1]) 10).1
        + ctxC1.lpenalty) / Real.log 10
      = ctxC1.lpenalty / Real.log 10
    ∧ 2 * ctxC1.lpenalty / Real.log 10 ≠ ctxC1.lpenalty / Real.log 10 := by
  have hlp : 0 < ctxC1.lpenalty := by
    rw [ctxC1_lp]; exact lpenalty_calc_pos_example
  have hlog : 0 < Real.log 10 := Real.log_pos (by norm_num)
  refine ⟨?_, ?_, ?_⟩
  · have hset : (coldC1.species_set.filter (fun i => decide (i ≠ 0))) = [] := by
      simp [coldC1]
    simp only [bayes_factor_log10]
    rw [c1_floor_med, hset, c1_h0_run]
    show (2 * Real.log (1e-5 + 1e-300) + ctxC1.lpenalty
      - 2 * Real.log (1e-5 + 1e-300) + ctxC1.lpenalty) / Real.log 10 = _
    ring
  · rw [c1_floor_med, c1_h1_run, c1_h0_run]
    ring_nf
  · intro heq
    have h0 : (2 * ctxC1.lpenalty - ctxC1.lpenalty) / Real.log 10 = 0 := by
      rw [sub_div, heq, sub_self]
    rw [div_eq_zero_iff] at h0
    rcases h0 with h0 | h0
    · linarith
    · linarith

/-- C1 (amended): the reported log10 Bayes factor for taxon `j` equals
`(L1 - L(S* \ {j}) + (|S*| + 1) * L_penalty) / ln 10`, where `L1` is
the unpenalized mini-EM log-likelihood underlying the cold chain's
stored value (`current_log_likelihood = L1 + |S*| * L_penalty`): the
code reuses the chain's penalized likelihood instead of an unpenalized
`L(S*)`, so the `|S*| * L_penalty` term remains in every reported Bayes
factor. -/
theorem c1_amended (ctx : McmcContext) (cold : ChainState) (learned_floor : ℝ)
    (sp_idx : ℕ) (init_abund : List (ℕ × ℝ)) (L1 : ℝ)
    (hinv : cold.current_log_likelihood
      = L1 + (cold.species_set.length : ℝ) * ctx.lpenalty) :
    bayes_factor_log10 ctx cold learned_floor sp_idx init_abund
      = (L1 - (run_mini_em ctx (cold.species_set.filter (fun i => decide (i ≠ sp_idx)))
            init_abund learned_floor 10).1
          + ((cold.species_set.length : ℝ) + 1) * ctx.lpenalty) / Real.log 10 := by
  unfold bayes_factor_log10
  rw [hinv]
  ring_nf

/-- Witness for `c1_amended` on the concrete empty-row scenario. -/
theorem c1_amended_witness :
    bayes_factor_log10 ctxC1 coldC1 1e-5 0 []
      = (2 * Real.log (1e-5 + 1e-300)
          - (run_mini_em ctxC1 (coldC1.species_set.filter (fun i => decide (i ≠ 0)))
              [] 1e-5 10).1
          + ((coldC1.species_set.length : ℝ) + 1) * ctxC1.lpenalty) / Real.log 10 :=
  c1_amended ctxC1 coldC1 1e-5 0 [] (2 * Real.log (1e-5 + 1e-300))
    (by show 2 * Real.log (1e-5 + 1e-300) + ctxC1.lpenalty = _; simp [coldC1])

lemma range_findIdx (n m : ℕ) (h : m < n) :
    (List.range n).findIdx? (fun c => decide (c = m)) = some m := by
  induction n with
  | zero => omega
  | succ k ih =>
    rw [List.range_succ, List.findIdx?_append]
    by_cases hm : m < k
    · rw [ih hm]; rfl
    · have hmk : m = k := by omega
      subst hmk
      have hnone : (List.range m).findIdx? (fun c => decide (c = m)) = none := by
        rw [List.findIdx?_eq_none_iff]
        intro x hx
        rw [List.mem_range] at hx
        exact decide_eq_false (by omega)
      rw [hnone]
      simp [List.findIdx?]

lemma filterMap_keep (n : ℕ) (row : List (ℕ × ℝ)) (h : ∀ e ∈ row, e.1 < n) :
    row.filterMap (fun e => ((List.range n).findIdx? (fun c => decide (c = e.1))).map
      (fun new_col => (new_col, e.2))) = row := by
  induction row with
  | nil => rfl
  | cons e t ih =>
    rw [List.filterMap_cons]
    rw [range_findIdx n e.1 (h e (List.mem_cons_self _ _))]
    simp only [Option.map_some']
    rw [ih (fun x hx => h x (List.mem_cons_of_mem _ hx))]

/-- C8: the reducer retains column `j` iff `round(π_j * R) ≥
read_cutoff`; with `read_cutoff = 0` (and the EM's non-negative
abundances) every column is retained, and the reduction returns the
same matrix rows, the same taxon order and the same abundances. -/
theorem c8_reduction_roundtrip (rows : List (List (ℕ × ℝ))) (taxons : List String)
    (em_abundances : List ℝ) (num_reads read_cutoff : ℕ)
    (htax : taxons.length = em_abundances.length)
    (hnn : ∀ a ∈ em_abundances, 0 ≤ a)
    (hcols : ∀ row ∈ rows, ∀ e ∈ row, e.1 < em_abundances.length) :
    (∀ j, j ∈ survivors em_abundances num_reads read_cutoff
      ↔ j < em_abundances.length
        ∧ (read_cutoff : ℝ)
          ≤ ((rustRound (em_abundances.getD j 0 * (num_reads : ℝ))) : ℝ))
    ∧ survivors em_abundances num_reads 0 = List.range em_abundances.length
    ∧ (em_reduce_filter rows taxons em_abundances num_reads 0).1 = rows
    ∧ (em_reduce_filter rows taxons em_abundances num_reads 0).2.1 = taxons
    ∧ (em_reduce_filter rows taxons em_abundances num_reads 0).2.2 = em_abundances := by
  have hall : survivors em_abundances num_reads 0 = List.range em_abundances.length := by
    unfold survivors
    rw [List.filter_eq_self]
    intro j hj
    rw [decide_eq_true_iff]
    have hj' : j < em_abundances.length := List.mem_range.mp hj
    have ha : (0 : ℝ) ≤ em_abundances.getD j 0 * (num_reads : ℝ) := by
      apply mul_nonneg
      · rw [List.getD_eq_getElem _ _ hj']
        exact hnn _ (List.getElem_mem _)
      · positivity
    unfold rustRound
    rw [if_pos ha]
    have h1 : (0 : ℤ) ≤ ⌊em_abundances.getD j 0 * (num_reads : ℝ) + 1 / 2⌋ :=
      Int.floor_nonneg.mpr (by linarith)
    exact_mod_cast h1
  refine ⟨?_, hall, ?_, ?_, ?_⟩
  · intro j
    unfold survivors
    rw [List.mem_filter, List.mem_range, decide_eq_true_iff]
  · show subset_matrix_columns rows (survivors em_abundances num_reads 0) = rows
    rw [hall]
    unfold subset_matrix_columns
    calc rows.map (fun row => row.filterMap (fun e =>
          ((List.range em_abundances.length).findIdx?
            (fun c => decide (c = e.1))).map (fun new_col => (new_col, e.2))))
        = rows.map id :=
          List.map_congr_left (fun r hr => filterMap_keep _ r (hcols r hr))
      _ = rows := List.map_id rows
  · show (survivors em_abundances num_reads 0).map (fun j => taxons.getD j "") = taxons
    rw [hall, ← htax]
    apply List.ext_getElem
    · simp
    · intro i h1 h2
      simp only [List.getElem_map, List.getElem_range]
      exact List.getD_eq_getElem _ _ h2
  · show (survivors em_abundances num_reads 0).map
        (fun j => em_abundances.getD j 0) = em_abundances
    rw [hall]
    apply List.ext_getElem
    · simp
    · intro i h1 h2
      simp only [List.getElem_map, List.getElem_range]
      exact List.getD_eq_getElem _ _ h2

/-- Witness for `c8_reduction_roundtrip` on a one-read, one-taxon
matrix. -/
theorem c8_witness :
    (∀ j, j ∈ survivors [3 / 4] 2 1
      ↔ j < ([(3 : ℝ) / 4] : List ℝ).length
        ∧ ((1 : ℕ) : ℝ)
          ≤ ((rustRound (([(3 : ℝ) / 4] : List ℝ).getD j 0 * ((2 : ℕ) : ℝ))) : ℝ))
    ∧ survivors [3 / 4] 2 0 = List.range ([(3 : ℝ) / 4] : List ℝ).length
    ∧ (em_reduce_filter [[(0, 1 / 2)]] ["5"] [3 / 4] 2 0).1 = [[(0, 1 / 2)]]
    ∧ (em_reduce_filter [[(0, 1 / 2)]] ["5"] [3 / 4] 2 0).2.1 = ["5"]
    ∧ (em_reduce_filter [[(0, 1 / 2)]] ["5"] [3 / 4] 2 0).2.2 = [3 / 4] :=
  c8_reduction_roundtrip [[(0, 1 / 2)]] ["5"] [3 / 4] 2 1
    (by rfl) (by intro a ha; simp at ha; rw [ha]; norm_num)
    (by intro row hrow e he; simp at hrow; rw [hrow] at he; simp at he; rw [he]; norm_num)

/-- Witness for `c6_mh_acceptance` at a concrete Add move. -/
theorem c6_mh_acceptance_witness :
    chain_step_log_alpha ctx0 st0 (Move.Add 0) [] 10
      = specMhAlpha ctx0 st0 (Move.Add 0) [] 10
    ∧ (((run_chain_step ctx0 st0 (Move.Add 0) [] 0 0 10).moves_accepted
          = st0.moves_accepted + 1)
        ↔ (0 ≤ specMhAlpha ctx0 st0 (Move.Add 0) [] 10
            ∨ (0 : ℝ) < Real.exp (specMhAlpha ctx0 st0 (Move.Add 0) [] 10))) :=
  c6_mh_acceptance ctx0 st0 (Move.Add 0) [] 0 0 10 (by decide)

end MetaBayes

